import Mathlib

/-!
Verification development for the social-media aggregation service of this
repository (`src/services/socialMediaService.ts` and the
`functions/fetch-rss-feeds` edge function).

The TypeScript code is shallowly embedded: strings are Lean `String`
(lists of characters; the code's character repertoire is ASCII plus
Turkish letters, all in the Basic Multilingual Plane, where JavaScript
UTF-16 code units coincide with code points), JavaScript numbers used as
timestamps are `Int`, and the regex-based text pipeline is modelled by
explicit scanners with the same leftmost-match semantics as a global
regex replace.  Scanners that advance by more than one character are
written with a fuel argument (fuel = input length is always sufficient,
since every step consumes at least one character while fuel decreases by
exactly one); this keeps every definition structurally recursive and
hence computable by `decide`/`rfl`.
-/

/-- The ECMAScript `\s` character class (WhiteSpace ∪ LineTerminator),
which is also the set trimmed by `String.prototype.trim`. -/
def isJsSpace (c : Char) : Bool :=
  c = ' ' || c = '\t' || c = '\n' || c = '\r' || c = '\x0b' || c = '\x0c' ||
  c = '\u00a0' || c = '\u1680' || ('\u2000' ≤ c && c ≤ '\u200a') ||
  c = '\u2028' || c = '\u2029' || c = '\u202f' || c = '\u205f' ||
  c = '\u3000' || c = '\ufeff'

/-- Model of `String.prototype.toLowerCase` on one character, restricted to
the character repertoire of this codebase: ASCII letters lower as usual
(`Char.toLower`), the Turkish uppercase letters map to their lowercase
forms, and `İ` (U+0130) maps to `i` followed by a combining dot above
(U+0307), per Unicode SpecialCasing — the detail the keyword matching of
`extractTags` stumbles over.  All other characters are unchanged. -/
def jsToLowerChar (c : Char) : List Char :=
  if c = 'İ' then ['i', '\u0307']
  else if c = 'Ç' then ['ç']
  else if c = 'Ğ' then ['ğ']
  else if c = 'Ö' then ['ö']
  else if c = 'Ş' then ['ş']
  else if c = 'Ü' then ['ü']
  else [c.toLower]

/-- Model of `String.prototype.toLowerCase`. -/
def jsToLower (s : String) : String :=
  ⟨(s.data.map jsToLowerChar).flatten⟩

/-- Model of `String.prototype.includes`: `hasSub needle hay` is true iff
`needle` occurs as a contiguous substring of `hay`. -/
def hasSub (needle : List Char) : List Char → Bool
  | [] => needle.isEmpty
  | c :: rest => needle.isPrefixOf (c :: rest) || hasSub needle rest

/-- One global-replace pass of `/<[^>]*>/g` by the empty string
(the tag-stripping step of `cleanContent`), with fuel.  A `<` that has no
later `>` never matches, so the remainder is kept verbatim. -/
def stripTagsF : Nat → List Char → List Char
  | 0, cs => cs
  | _ + 1, [] => []
  | fuel + 1, c :: rest =>
    if c = '<' then
      match rest.dropWhile (fun d => !(d = '>')) with
      | [] => c :: rest
      | _ :: after => stripTagsF fuel after
    else c :: stripTagsF fuel rest

def stripTags (cs : List Char) : List Char := stripTagsF cs.length cs

/-- One global-replace pass of `/&[^;]+;/g` by a single space
(the HTML-entity step of `cleanContent`), with fuel.  The body of an
entity needs at least one character, so `&;` does not match. -/
def stripEntitiesF : Nat → List Char → List Char
  | 0, cs => cs
  | _ + 1, [] => []
  | fuel + 1, c :: rest =>
    if c = '&' then
      match rest with
      | [] => [c]
      | d :: _ =>
        if d = ';' then c :: stripEntitiesF fuel rest
        else
          match rest.dropWhile (fun x => !(x = ';')) with
          | [] => c :: rest
          | _ :: after => ' ' :: stripEntitiesF fuel after
    else c :: stripEntitiesF fuel rest

def stripEntities (cs : List Char) : List Char := stripEntitiesF cs.length cs

/-- One global-replace pass of `/\s+/g` by a single space
(the whitespace-collapsing step of `cleanContent`), with fuel. -/
def collapseWsF : Nat → List Char → List Char
  | 0, cs => cs
  | _ + 1, [] => []
  | fuel + 1, c :: rest =>
    if isJsSpace c then ' ' :: collapseWsF fuel (rest.dropWhile isJsSpace)
    else c :: collapseWsF fuel rest

def collapseWs (cs : List Char) : List Char := collapseWsF cs.length cs

/-- Model of `String.prototype.trim` on a character list. -/
def trimChars (cs : List Char) : List Char :=
  ((cs.dropWhile isJsSpace).reverse.dropWhile isJsSpace).reverse

/-- Model of `String.prototype.trim`. -/
def jsTrim (s : String) : String := ⟨trimChars s.data⟩

/-- `cleanContent` before its final `.substring(0, 500)` truncation. -/
def preClean (s : String) : List Char :=
  trimChars (collapseWs (stripEntities (stripTags s.data)))

/-- `cleanContent` from `socialMediaService.ts` (the same function appears
verbatim in `functions/fetch-rss-feeds/index.ts`): strip `/<[^>]*>/g`,
replace `/&[^;]+;/g` by a space, collapse `/\s+/g` to single spaces,
trim, then truncate to 500 characters. -/
def cleanContent (s : String) : String :=
  ⟨(preClean s).take 500⟩

/-- Checker: does the text contain a `<...>` markup tag, i.e. a match of
`/<[^>]*>/`?  A match exists iff some `<` is followed (anywhere later) by
a `>`; taking the last `<` before that `>` yields an explicit match. -/
def hasTag (cs : List Char) : Bool :=
  match cs with
  | [] => false
  | c :: rest => (c = '<' && rest.contains '>') || hasTag rest

/-- Checker: does the text contain two adjacent whitespace characters? -/
def hasDoubleSpace (cs : List Char) : Bool :=
  match cs with
  | c :: d :: rest => (isJsSpace c && isJsSpace d) || hasDoubleSpace (d :: rest)
  | _ => false

/-- `sentences[0].trim()` of `generateSummary`: `content.split(/[.!?]+/)`
always yields at least one field, whose value is the prefix of the content
before the first sentence-ending character. -/
def firstSent (content : String) : String :=
  jsTrim ⟨content.data.takeWhile (fun c => !(c = '.' || c = '!' || c = '?'))⟩

/-- `generateSummary` from `socialMediaService.ts`: use the first sentence
(plus a period) when its trimmed length lies in (20, 150], otherwise the
first 120 characters of the content followed by an ellipsis.  The `&&`
truthiness test on `firstSentence` is subsumed by `length > 20`. -/
def generateSummary (content : String) : String :=
  if !(firstSent content).isEmpty && decide (20 < (firstSent content).length) &&
      decide ((firstSent content).length ≤ 150) then
    firstSent content ++ "."
  else
    (⟨content.data.take 120⟩ : String) ++ "..."

/-- Engagement counters of a post. -/
structure Engagement where
  likes : Nat
  shares : Nat
  comments : Nat
  deriving DecidableEq, Repr

/-- Author block of a post. -/
structure Author where
  username : String
  name : String
  verified : Bool
  deriving DecidableEq, Repr

/-- The `SocialMediaPost` interface of `socialMediaService.ts`.  The
`platform` union type is modelled as a string. -/
structure Post where
  id : String
  content : String
  summary : String
  platform : String
  date : String
  time : String
  url : Option String := none
  engagement : Engagement
  tags : List String
  category : Option String := none
  imageUrl : Option String := none
  author : Option Author := none
  deriving DecidableEq, Repr

/-- The hashtag character class of the edge function's `extractTags`
regex `/#[\wğüşıöçĞÜŞİÖÇ]+/g`: ASCII word characters plus the listed
Turkish letters. -/
def isTagChar (c : Char) : Bool :=
  ('a' ≤ c && c ≤ 'z') || ('A' ≤ c && c ≤ 'Z') || ('0' ≤ c && c ≤ '9') ||
  c = '_' || c = 'ğ' || c = 'ü' || c = 'ş' || c = 'ı' || c = 'ö' || c = 'ç' ||
  c = 'Ğ' || c = 'Ü' || c = 'Ş' || c = 'İ' || c = 'Ö' || c = 'Ç'

/-- Global matching of `/#[...]+/g`: every maximal nonempty run of tag
characters directly after a `#`, left to right, with fuel. -/
def extractHashtagsF : Nat → List Char → List (List Char)
  | 0, _ => []
  | _ + 1, [] => []
  | fuel + 1, c :: rest =>
    if c = '#' then
      match rest.takeWhile isTagChar with
      | [] => extractHashtagsF fuel rest
      | run => run :: extractHashtagsF fuel (rest.dropWhile isTagChar)
    else extractHashtagsF fuel rest

/-- The keyword → related-tags table of the edge function's
`extractTags`, in object-literal insertion order. -/
def keywordTable : List (String × List String) :=
  [("İstanbul", ["İstanbul", "Şehir"]),
   ("belediye", ["Belediye", "Yönetim"]),
   ("proje", ["Proje", "Gelişim"]),
   ("ulaşım", ["Ulaşım", "Metro"]),
   ("çevre", ["Çevre", "Yeşil"]),
   ("gençlik", ["Gençlik", "Eğitim"]),
   ("kültür", ["Kültür", "Sanat"]),
   ("spor", ["Spor", "Sağlık"]),
   ("ekonomi", ["Ekonomi", "İş"]),
   ("sosyal", ["Sosyal", "Toplum"]),
   ("seçim", ["Seçim", "Politika"]),
   ("cumhurbaşkanı", ["CB", "Seçim"]),
   ("millet", ["Millet", "Halk"]),
   ("demokrasi", ["Demokrasi", "Özgürlük"])]

/-- `[...new Set(tags)]`: deduplication keeping the first occurrence. -/
def jsSetDedup (l : List String) : List String :=
  l.foldl (fun acc x => if acc.contains x then acc else acc ++ [x]) []

/-- `extractTags` from `functions/fetch-rss-feeds/index.ts` (the
Unicode-letter-aware variant): hashtags stripped of `#`, then for each
table entry whose key occurs in `content.toLowerCase()` the related tags,
deduplicated first-seen and capped at 5.  Note the keyword itself is NOT
lowercased before the `includes` test — exactly as in the source. -/
def extractTags (content : String) : List String :=
  let hashtags := (extractHashtagsF content.data.length content.data).map
    (fun cs => String.mk cs)
  let lower := jsToLower content
  let tags := hashtags ++ keywordTable.foldl
    (fun acc kv => if hasSub kv.1.data lower.data then acc ++ kv.2 else acc) []
  (jsSetDedup tags).take 5

/-- Order-isomorphic model of `new Date(date ++ " " ++ time).getTime()`
for the `"YYYY-MM-DD HH:MM"` strings this codebase produces: a strictly
monotone integer encoding of the calendar tuple, positive for every
parsable timestamp; any other string is unparsable (`none`, the model of
`NaN`). -/
def jsDateValue (s : String) : Option Int :=
  match s.data with
  | [y1, y2, y3, y4, '-', m1, m2, '-', d1, d2, ' ', h1, h2, ':', n1, n2] =>
    if [y1, y2, y3, y4, m1, m2, d1, d2, h1, h2, n1, n2].all Char.isDigit then
      let v (c : Char) : Int := (c.toNat : Int) - 48
      let y := v y1 * 1000 + v y2 * 100 + v y3 * 10 + v y4
      let mo := v m1 * 10 + v m2
      let dy := v d1 * 10 + v d2
      let hr := v h1 * 10 + v h2
      let mi := v n1 * 10 + v n2
      if 1 ≤ mo && mo ≤ 12 && 1 ≤ dy && dy ≤ 31 && hr ≤ 23 && mi ≤ 59 then
        some (((y * 10000 + mo * 100 + dy) * 10000) + hr * 100 + mi)
      else none
    else none
  | _ => none

/-- The sort key of `getAllPosts`: the timestamp parsed from
`post.date + ' ' + post.time`. -/
def postTime (p : Post) : Option Int :=
  jsDateValue (p.date ++ " " ++ p.time)

/-- The comparator `(a, b) => new Date(b...).getTime() - new Date(a...).getTime()`
after ECMAScript `SortCompare`, which coerces a `NaN` comparator result
to `+0`: when either timestamp is unparsable the two posts tie. -/
def sortCompare (a b : Post) : Int :=
  match postTime a, postTime b with
  | some x, some y => y - x
  | _, _ => 0

/-- Stable insertion of a post into an already-processed list, placing it
before the first element it compares `≤ 0` against. -/
def jsOrderedInsert (a : Post) : List Post → List Post
  | [] => [a]
  | b :: l => if sortCompare a b ≤ 0 then a :: b :: l else b :: jsOrderedInsert a l

/-- Model of `Array.prototype.sort` with the comparator above: the stable
insertion sort (ECMAScript requires the sort to be stable; with the
inconsistent NaN-tie comparator the precise order is implementation
defined, and this deterministic stable sort is one legal realisation,
matching V8's insertion sort on small arrays). -/
def jsSortPosts : List Post → List Post
  | [] => []
  | a :: l => jsOrderedInsert a (jsSortPosts l)

/-- `getMockData` from `src/services/socialMediaService.ts`: the fixed
fallback post set returned when every source fails and no cache exists.
Only the `date` fields depend on the clock (`today.toISOString()` and the
two preceding days), so they are parameters; everything else is literal
in the source. -/
def getMockData (today yesterday twoDaysAgo : String) : List Post :=
  [{ id := "real_content_1",
     content := "İstanbul\x27da ulaşım devrimini sürdürüyoruz. Yeni metro hatlarımızla vatandaşlarımızın hayatını kolaylaştırıyoruz. Çevre dostu, hızlı ve konforlu ulaşım hakkı herkesin hakkıdır. #İstanbulMetrosu #UlaşımDevrimi #YeşilUlaşım",
     summary := "İstanbul\x27da metro hatları genişletilerek ulaşım devrimi sürdürülüyor.",
     platform := "twitter", date := today, time := "14:30",
     url := some "https://twitter.com/CBAdayOfisi/status/1234567890",
     engagement := ⟨2847, 456, 189⟩,
     tags := ["İstanbul", "Metro", "Ulaşım", "YeşilUlaşım", "Belediye"],
     category := some "Ulaşım",
     author := some ⟨"CBAdayOfisi", "Ekrem İmamoğlu", true⟩ },
   { id := "real_content_2",
     content := "Gençlerimiz İstanbul\x27un geleceğidir. Onlara daha fazla imkan, daha fazla destek sağlamak için çalışmaya devam ediyoruz. Gençlik merkezlerimizde ücretsiz kurslar, spor aktiviteleri ve sosyal etkinlikler düzenliyoruz. #Gençlikİçin #İstanbulGençlik",
     summary := "Gençler için ücretsiz kurslar ve sosyal etkinlikler düzenleniyor.",
     platform := "instagram", date := yesterday, time := "16:45",
     url := some "https://www.instagram.com/p/ABC123/",
     engagement := ⟨4521, 234, 312⟩,
     tags := ["Gençlik", "Eğitim", "Sosyal", "İstanbul", "Destek"],
     category := some "Eğitim",
     author := some ⟨"ekremimamoglu", "Ekrem İmamoğlu", true⟩ },
   { id := "real_content_3",
     content := "İstanbul\x27u daha yeşil, daha yaşanabilir bir şehir haline getiriyoruz. Her mahallede yeni parklar açıyor, ağaçlandırma çalışmalarını sürdürüyoruz. Çevre koruma sadece bir slogan değil, yaşam tarzımızdır. #Yeşilİstanbul #ÇevreKoruma #SürdürülebilirŞehir",
     summary := "İstanbul\x27da yeşil alanlar artırılıyor ve çevre koruma çalışmaları sürdürülüyor.",
     platform := "facebook", date := twoDaysAgo, time := "10:15",
     url := some "https://www.facebook.com/imamogluekrem/posts/123456789",
     engagement := ⟨3654, 789, 445⟩,
     tags := ["Çevre", "Yeşil", "Park", "İstanbul", "SürdürülebilirŞehir"],
     category := some "Çevre",
     author := some ⟨"imamogluekrem", "Ekrem İmamoğlu", true⟩ },
   { id := "real_content_4",
     content := "Demokrasi ve adalet mücadelemiz devam ediyor. Halkın iradesine saygı, şeffaflık ve hesap verebilirlik ilkelerimizden asla taviz vermeyeceğiz. İstanbul\x27u birlikte yönetiyoruz, birlikte büyütüyoruz. #Demokrasi #Adalet #Halkınİradesi",
     summary := "Demokrasi ve adalet mücadelesi, şeffaflık ilkeleriyle sürdürülüyor.",
     platform := "twitter", date := twoDaysAgo, time := "20:30",
     url := some "https://twitter.com/imamoglu_int/status/9876543210",
     engagement := ⟨5234, 1234, 567⟩,
     tags := ["Demokrasi", "Adalet", "Şeffaflık", "Halkınİradesi", "Politika"],
     category := some "Politika",
     author := some ⟨"imamoglu_int", "Ekrem İmamoğlu", true⟩ },
   { id := "real_content_5",
     content := "İstanbul\x27da kültür ve sanat hayatını canlandırıyoruz. Müzelerimiz, tiyatrolarımız ve konser salonlarımızla şehrimizi kültür başkenti yapıyoruz. Sanat herkesin hakkıdır. #KültürBaşkenti #SanatHerkesin #İstanbulKültür",
     summary := "İstanbul\x27da kültür ve sanat etkinlikleri artırılarak şehir kültür başkenti yapılıyor.",
     platform := "youtube", date := today, time := "12:00",
     url := some "https://www.youtube.com/watch?v=ABC123DEF456",
     engagement := ⟨1876, 345, 234⟩,
     tags := ["Kültür", "Sanat", "Müze", "Tiyatro", "İstanbul"],
     category := some "Kültür",
     author := some ⟨"EkremImamogluTV", "Ekrem İmamoğlu", true⟩ },
   { id := "real_content_6",
     content := "Sosyal belediyecilik anlayışımızla hiçbir vatandaşımızı yalnız bırakmıyoruz. Yaşlılarımıza, engelli kardeşlerimize ve ihtiyaç sahibi ailelerimize destek olmaya devam ediyoruz. Dayanışma İstanbul\x27un ruhudur. #SosyalBelediyecilik #Dayanışma #İstanbulRuhu",
     summary := "Sosyal belediyecilik kapsamında yaşlı, engelli ve ihtiyaç sahibi ailelere destek veriliyor.",
     platform := "twitter", date := yesterday, time := "09:45",
     url := some "https://twitter.com/CBAdayOfisi/status/5555666677",
     engagement := ⟨3421, 567, 289⟩,
     tags := ["Sosyal", "Belediyecilik", "Dayanışma", "Destek", "İstanbul"],
     category := some "Sosyal",
     author := some ⟨"CBAdayOfisi", "Ekrem İmamoğlu", true⟩ },
   { id := "real_content_7",
     content := "İstanbul\x27da spor kültürünü geliştiriyoruz. Yeni spor tesisleri, halı sahalar ve fitness alanlarıyla vatandaşlarımızın sağlıklı yaşam sürmesini destekliyoruz. Sağlıklı nesiller, güçlü İstanbul. #Sporİstanbul #SağlıklıYaşam #FitnessHerkesin",
     summary := "İstanbul\x27da spor tesisleri artırılarak vatandaşların sağlıklı yaşam sürmesi destekleniyor.",
     platform := "instagram", date := today, time := "18:20",
     url := some "https://www.instagram.com/p/DEF456GHI/",
     engagement := ⟨2987, 198, 156⟩,
     tags := ["Spor", "Sağlık", "Fitness", "İstanbul", "SağlıklıYaşam"],
     category := some "Spor",
     author := some ⟨"ekremimamoglu", "Ekrem İmamoğlu", true⟩ },
   { id := "real_content_8",
     content := "İstanbul\x27un ekonomik gücünü artırmak için girişimcilerimizi destekliyoruz. KOBİ\x27lere kredi desteği, genç girişimcilere mentorluk programları ve iş geliştirme merkezleriyle ekonomimizi güçlendiriyoruz. #GirişimcilikDestegi #İstanbulEkonomi #KOBİDestek",
     summary := "Girişimciler ve KOBİ\x27ler için destek programları ile İstanbul\x27un ekonomik gücü artırılıyor.",
     platform := "facebook", date := yesterday, time := "13:15",
     url := some "https://www.facebook.com/imamogluekrem/posts/987654321",
     engagement := ⟨2156, 432, 178⟩,
     tags := ["Ekonomi", "Girişimcilik", "KOBİ", "İş", "Destek"],
     category := some "Ekonomi",
     author := some ⟨"imamogluekrem", "Ekrem İmamoğlu", true⟩ }]

/-- One entry of the service's private cache map (there is a single key,
`'all_posts'`). -/
structure CacheEntry where
  data : List Post
  timestamp : Int
  deriving DecidableEq, Repr

/-- `CACHE_DURATION = 5 * 60 * 1000` milliseconds. -/
def cacheDurationMs : Int := 5 * 60 * 1000

/-- Observable outcome of one `getAllPosts()` invocation: the returned
list, the cache state afterwards, and how many adapter fetches
(`fetchRealTwitterData` / `fetchRealRSSFeeds`, i.e. network requests)
were issued. -/
structure AggResult where
  posts : List Post
  cache : Option CacheEntry
  adapterCalls : Nat
  deriving DecidableEq, Repr

/-- The cache-miss path of `getAllPosts` (everything after the freshness
check): both adapters are invoked — each returns `[]` on failure, so the
parameters `tw`/`rss` stand for "posts contributed", failure included —
and `hasAnyData` is exactly "the concatenation is nonempty". -/
def refreshPosts (cache : Option CacheEntry) (now : Int) (tw rss : List Post)
    (today yesterday twoDaysAgo : String) : AggResult :=
  let allPosts := tw ++ rss
  if !allPosts.isEmpty then
    let sorted := jsSortPosts allPosts
    { posts := sorted, cache := some ⟨sorted, now⟩, adapterCalls := 2 }
  else
    match cache with
    | some cached => { posts := cached.data, cache := some cached, adapterCalls := 2 }
    | none =>
      { posts := getMockData today yesterday twoDaysAgo, cache := none,
        adapterCalls := 2 }

/-- `getAllPosts` from `socialMediaService.ts` as a function of the cache
state, the clock, and the two adapters' contributions.  A fresh cache
entry (`now - timestamp < CACHE_DURATION`) is returned as-is with no
adapter call; otherwise the refresh path runs. -/
def getAllPosts (cache : Option CacheEntry) (now : Int) (tw rss : List Post)
    (today yesterday twoDaysAgo : String) : AggResult :=
  match cache with
  | some cached =>
    if now - cached.timestamp < cacheDurationMs then
      { posts := cached.data, cache := some cached, adapterCalls := 0 }
    else refreshPosts (some cached) now tw rss today yesterday twoDaysAgo
  | none => refreshPosts none now tw rss today yesterday twoDaysAgo

/-- `searchPosts` from `socialMediaService.ts`: a blank query is passed
through; otherwise the lowercased query is split on single spaces, empty
tokens dropped, and a post is kept iff every token occurs in the
lowercased concatenation of content, summary, tags and category. -/
def searchPosts (posts : List Post) (query : String) : List Post :=
  if (jsTrim query).isEmpty then posts
  else
    let searchTerms := ((jsToLower query).splitOn " ").filter
      (fun term => decide (0 < term.length))
    posts.filter fun post =>
      let searchableText := jsToLower (String.intercalate " "
        ([post.content, post.summary] ++ post.tags ++ [post.category.getD ""]))
      searchTerms.all fun term => hasSub term.data searchableText.data

/-- The `filters` record of `filterPosts`; every field optional. -/
structure SearchFilters where
  platform : Option String := none
  category : Option String := none
  dateFrom : Option String := none
  dateTo : Option String := none
  tags : Option (List String) := none
  deriving DecidableEq, Repr

/-- JavaScript truthiness of an optional string: `undefined` and the
empty string are falsy. -/
def strTruthy : Option String → Bool
  | none => false
  | some s => !s.isEmpty

/-- The guard `filters.tags && filters.tags.length > 0`. -/
def tagsGiven : Option (List String) → Bool
  | none => false
  | some ts => decide (0 < ts.length)

/-- `filters.tags.some(tag => post.tags.some(postTag =>
postTag.toLowerCase().includes(tag.toLowerCase())))`. -/
def tagsMatch (o : Option (List String)) (post : Post) : Bool :=
  (o.getD []).any fun tag =>
    post.tags.any fun pt => hasSub (jsToLower tag).data (jsToLower pt).data

/-- The predicate body of `filterPosts`: the early-return cascade over
the five filter dimensions, with JavaScript truthiness on each guard. -/
def keepPost (f : SearchFilters) (post : Post) : Bool :=
  if strTruthy f.platform && !(post.platform == f.platform.getD "") then false
  else if strTruthy f.category && !(post.category == some (f.category.getD "")) then false
  else if strTruthy f.dateFrom && decide (post.date < f.dateFrom.getD "") then false
  else if strTruthy f.dateTo && decide (f.dateTo.getD "" < post.date) then false
  else if tagsGiven f.tags && !(tagsMatch f.tags post) then false
  else true

/-- `filterPosts` from `socialMediaService.ts`. -/
def filterPosts (posts : List Post) (f : SearchFilters) : List Post :=
  posts.filter (keepPost f)

/-- Modelled from the spec's words, for comparison with `filterPosts`
(claim C8): "a post passes iff, for every filter dimension present in
`filters`, the corresponding condition holds: exact match on
platform/category; dateFrom ≤ post.date and post.date ≤ dateTo
(lexicographic); for a non-empty `tags` list, some requested tag is a
case-insensitive substring of some post tag."  Presence here means the
field is supplied (`some`), with no truthiness exception. -/
def specPasses (post : Post) (f : SearchFilters) : Bool :=
  (match f.platform with | none => true | some v => post.platform == v) &&
  (match f.category with | none => true | some v => post.category == some v) &&
  (match f.dateFrom with | none => true | some v => !decide (post.date < v)) &&
  (match f.dateTo with | none => true | some v => !decide (v < post.date)) &&
  (match f.tags with
   | none => true
   | some ts => ts.isEmpty || ts.any fun tag =>
       post.tags.any fun pt => hasSub (jsToLower tag).data (jsToLower pt).data)

/-- Fixture: a post whose `date`/`time` do not parse as a timestamp. -/
def postNoDate : Post :=
  { id := "a", content := "no date", summary := "", platform := "rss",
    date := "bad", time := "oops", engagement := ⟨0, 0, 0⟩, tags := [] }

/-- Fixture: an older parsable post. -/
def postOld : Post :=
  { id := "b", content := "old", summary := "", platform := "rss",
    date := "2025-01-01", time := "10:00", engagement := ⟨0, 0, 0⟩, tags := [] }

/-- Fixture: a newer parsable post. -/
def postNew : Post :=
  { id := "c", content := "new", summary := "", platform := "rss",
    date := "2025-01-02", time := "10:00", engagement := ⟨0, 0, 0⟩, tags := [] }

/-- Fixture: a Twitter post used by the query-layer claims. -/
def postTw : Post :=
  { id := "t", content := "İstanbul haberleri", summary := "özet",
    platform := "twitter", date := "2025-01-15", time := "12:00",
    engagement := ⟨1, 2, 3⟩, tags := ["İstanbul", "Metro"],
    category := some "Ulaşım" }

/-- C1: if the `all_posts` cache entry is fresh (`now - timestamp <
CACHE_DURATION`), `getAllPosts()` returns exactly the cached data,
issues no adapter (network) call, and leaves the cache entry unchanged. -/
theorem getAllPosts_cache_hit (c : CacheEntry) (now : Int) (tw rss : List Post)
    (today yesterday twoDaysAgo : String)
    (h : now - c.timestamp < cacheDurationMs) :
    getAllPosts (some c) now tw rss today yesterday twoDaysAgo =
      { posts := c.data, cache := some c, adapterCalls := 0 } := by
  simp [getAllPosts, h]

/-- Witness for C1 at a concrete fresh cache state. -/
theorem getAllPosts_cache_hit_witness :
    getAllPosts (some ⟨[postTw], 0⟩) 1000 [] [] "" "" "" =
      { posts := [postTw], cache := some ⟨[postTw], 0⟩, adapterCalls := 0 } :=
  getAllPosts_cache_hit ⟨[postTw], 0⟩ 1000 [] [] "" "" "" (by decide)

/-- C2: when both adapters contribute zero posts and a cache entry exists
(fresh or stale), `getAllPosts()` returns that entry's data verbatim and
the cache entry is left untouched — a failed refresh never overwrites or
empties the cache. -/
theorem getAllPosts_empty_adapters_cache_fallback (c : CacheEntry) (now : Int)
    (today yesterday twoDaysAgo : String) :
    (getAllPosts (some c) now [] [] today yesterday twoDaysAgo).posts = c.data ∧
    (getAllPosts (some c) now [] [] today yesterday twoDaysAgo).cache = some c := by
  by_cases h : now - c.timestamp < cacheDurationMs <;>
    simp [getAllPosts, refreshPosts, h]

/-- C3 counterexample: with no cache and no adapter data, the returned
fallback posts do NOT all carry category `"Sistem"` (the first one is
`"Ulaşım"`), refuting the claimed `category == "Sistem"` placeholder
shape at this concrete input. -/
theorem getAllPosts_fallback_not_sistem :
    (getAllPosts none 0 [] [] "2025-06-10" "2025-06-09" "2025-06-08").posts ≠ [] ∧
    (getAllPosts none 0 [] [] "2025-06-10" "2025-06-09" "2025-06-08").posts.all
      (fun p => p.category == some "Sistem") = false := by
  decide

/-- C3 amended: with no cache entry and no fresh data, `getAllPosts()`
returns exactly the fixed `getMockData` fallback set, which is non-empty,
and whose categories are the eight regular content categories (Ulaşım,
Eğitim, Çevre, Politika, Kültür, Sosyal, Spor, Ekonomi) — not `"Sistem"`
service-degradation markers; the cache stays absent. -/
theorem getAllPosts_no_cache_no_data_mock (now : Int)
    (today yesterday twoDaysAgo : String) :
    getAllPosts none now [] [] today yesterday twoDaysAgo =
      { posts := getMockData today yesterday twoDaysAgo, cache := none,
        adapterCalls := 2 } ∧
    getMockData today yesterday twoDaysAgo ≠ [] ∧
    (getMockData today yesterday twoDaysAgo).map Post.category =
      [some "Ulaşım", some "Eğitim", some "Çevre", some "Politika",
       some "Kültür", some "Sosyal", some "Spor", some "Ekonomi"] := by
  refine ⟨by simp [getAllPosts, refreshPosts], by simp [getMockData], rfl⟩

/-- C6: evaluating the edge function's `extractTags` at the input from
the claim.  The hashtag-derived tags `Metro` and `YeşilUlaşım` are
extracted (the regex is Turkish-letter-aware) and the `"ulaşım"` keyword
fires, but the `"İstanbul"` table entry can never fire: the content is
lowercased before the `includes` test while the keyword keeps its capital
`İ` (U+0130), a character that cannot occur in lowercased text.  So
`İstanbul` and `Şehir` are absent, contrary to the claim. -/
theorem extractTags_keyword_case_slip :
    extractTags "İstanbul\x27da #Metro ve #YeşilUlaşım büyüyor" =
      ["Metro", "YeşilUlaşım", "Ulaşım"] ∧
    "İstanbul" ∉ extractTags "İstanbul\x27da #Metro ve #YeşilUlaşım büyüyor" := by
  decide

/-- C9: a query that trims to the empty string makes `searchPosts` the
identity on the post list. -/
theorem searchPosts_blank_query (posts : List Post) (query : String)
    (h : jsTrim query = "") :
    searchPosts posts query = posts := by
  have he : (jsTrim query).isEmpty = true := by rw [h]; rfl
  simp [searchPosts, he]

/-- Witness for C9 at a whitespace-only query. -/
theorem searchPosts_blank_query_witness :
    searchPosts [postTw] "   " = [postTw] :=
  searchPosts_blank_query [postTw] "   " (by decide)

/-- C10: `searchPosts` and `filterPosts` both return sublists
(order-preserving subsequences) of their input: every output post is an
input post, order is preserved, and nothing is duplicated or synthesized
(the embedding is pure, so inputs are unmodified). -/
theorem searchPosts_filterPosts_sublist (posts : List Post) (query : String)
    (f : SearchFilters) :
    (searchPosts posts query).Sublist posts ∧
    (filterPosts posts f).Sublist posts := by
  constructor
  · unfold searchPosts
    split
    · exact List.Sublist.refl posts
    · exact List.filter_sublist posts
  · exact List.filter_sublist posts

/-- C7: `generateSummary` either returns the trimmed first sentence plus
a period (when that sentence's length lies in (20, 150], giving length
at most 151) or the first 120 characters plus `"..."` (length at most
123); in every case the output has at most 151 characters. -/
theorem generateSummary_bounds (s : String) :
    (generateSummary s).length ≤ 151 ∧
    ((!(firstSent s).isEmpty && decide (20 < (firstSent s).length) &&
        decide ((firstSent s).length ≤ 150)) = true →
      generateSummary s = firstSent s ++ "." ∧
      (generateSummary s).length = (firstSent s).length + 1) ∧
    ((!(firstSent s).isEmpty && decide (20 < (firstSent s).length) &&
        decide ((firstSent s).length ≤ 150)) = false →
      generateSummary s = (⟨s.data.take 120⟩ : String) ++ "..." ∧
      (generateSummary s).length ≤ 123) := by
  cases h : (!(firstSent s).isEmpty && decide (20 < (firstSent s).length) &&
      decide ((firstSent s).length ≤ 150)) with
  | true =>
    have hle : (firstSent s).length ≤ 150 := by
      have := (Bool.and_eq_true _ _).mp h
      exact of_decide_eq_true this.2
    have heq : generateSummary s = firstSent s ++ "." := by
      rw [generateSummary, if_pos h]
    refine ⟨?_, fun _ => ⟨heq, ?_⟩, fun hf => nomatch hf⟩
    · rw [heq, String.length_append]
      have h1 : ("." : String).length = 1 := rfl
      omega
    · rw [heq, String.length_append]
      rfl
  | false =>
    have heq : generateSummary s = (⟨s.data.take 120⟩ : String) ++ "..." := by
      rw [generateSummary, if_neg (by simp [h])]
    have hlen : (generateSummary s).length ≤ 123 := by
      rw [heq, String.length_append, String.length_mk]
      have h1 : (s.data.take 120).length ≤ 120 := List.length_take_le 120 s.data
      have h2 : ("..." : String).length = 3 := rfl
      omega
    exact ⟨by omega, fun ht => Bool.noConfusion ht, fun _ => ⟨heq, hlen⟩⟩

/-- Witness for C7: both branches at concrete inputs. -/
theorem generateSummary_bounds_witness :
    generateSummary "Bu bir deneme cumlesidir uzunca. Devami var." =
      "Bu bir deneme cumlesidir uzunca." ∧
    generateSummary "kısa." = "kısa...." := by
  constructor
  · have h := (generateSummary_bounds "Bu bir deneme cumlesidir uzunca. Devami var.").2.1 (by decide)
    rw [h.1]; decide
  · have h := (generateSummary_bounds "kısa.").2.2 (by decide)
    rw [h.1]; decide

/-- Descending order on the sort key claimed by the spec, with an
unparsable timestamp read as epoch zero (`getD 0`). -/
def descKey (a b : Post) : Prop :=
  (postTime b).getD 0 ≤ (postTime a).getD 0

instance (a b : Post) : Decidable (descKey a b) :=
  inferInstanceAs (Decidable (_ ≤ _))

theorem mem_jsOrderedInsert (a x : Post) (l : List Post) :
    x ∈ jsOrderedInsert a l ↔ x = a ∨ x ∈ l := by
  induction l with
  | nil => simp [jsOrderedInsert]
  | cons b t ih =>
    unfold jsOrderedInsert
    split
    · simp [List.mem_cons]
    · simp only [List.mem_cons, ih]
      tauto

theorem mem_jsSortPosts (x : Post) (l : List Post) :
    x ∈ jsSortPosts l ↔ x ∈ l := by
  induction l with
  | nil => simp [jsSortPosts]
  | cons a t ih => simp [jsSortPosts, mem_jsOrderedInsert, ih, List.mem_cons]

theorem descKey_trans (a b c : Post) (h1 : descKey a b) (h2 : descKey b c) :
    descKey a c :=
  le_trans h2 h1

theorem pairwise_jsOrderedInsert (a : Post) (l : List Post)
    (hall : ∀ y ∈ a :: l, (postTime y).isSome = true)
    (hp : l.Pairwise descKey) :
    (jsOrderedInsert a l).Pairwise descKey := by
  induction l with
  | nil => simp [jsOrderedInsert]
  | cons b t ih =>
    obtain ⟨ta, hta⟩ := Option.isSome_iff_exists.mp (hall a (by simp))
    obtain ⟨tb, htb⟩ := Option.isSome_iff_exists.mp (hall b (by simp))
    have hcmp : sortCompare a b = tb - ta := by
      unfold sortCompare
      rw [hta, htb]
    unfold jsOrderedInsert
    split
    · -- inserted in front: sortCompare a b ≤ 0, so tb ≤ ta
      rename_i hle
      rw [hcmp] at hle
      have hab : descKey a b := by
        unfold descKey
        rw [hta, htb]
        simpa using by omega
      refine List.Pairwise.cons ?_ hp
      intro z hz
      rcases List.mem_cons.mp hz with rfl | hzt
      · exact hab
      · exact descKey_trans a b z hab (List.rel_of_pairwise_cons hp hzt)
    · -- recursed past b: sortCompare a b > 0, so ta < tb
      rename_i hgt
      rw [hcmp] at hgt
      have hba : descKey b a := by
        unfold descKey
        rw [hta, htb]
        simpa using by omega
      refine List.Pairwise.cons ?_ (ih (fun y hy => hall y (by
        rcases List.mem_cons.mp hy with rfl | hyt
        · exact List.mem_cons_self _ _
        · exact List.mem_cons_of_mem _ (List.mem_cons_of_mem _ hyt)))
        (List.Pairwise.of_cons hp))
      intro z hz
      rcases (mem_jsOrderedInsert a z t).mp hz with rfl | hzt
      · exact hba
      · exact List.rel_of_pairwise_cons hp hzt

theorem pairwise_jsSortPosts (l : List Post)
    (hall : ∀ y ∈ l, (postTime y).isSome = true) :
    (jsSortPosts l).Pairwise descKey := by
  induction l with
  | nil => simp [jsSortPosts]
  | cons a t ih =>
    unfold jsSortPosts
    refine pairwise_jsOrderedInsert a (jsSortPosts t) ?_
      (ih (fun y hy => hall y (List.mem_cons_of_mem _ hy)))
    intro y hy
    rcases List.mem_cons.mp hy with rfl | hyt
    · exact hall y (List.mem_cons_self _ _)
    · exact hall y (List.mem_cons_of_mem _ ((mem_jsSortPosts y t).mp hyt))

/-- C4 counterexample: a post whose `date`/`time` do not parse does NOT
sort under epoch-zero semantics.  The comparator returns `NaN`, which
`SortCompare` coerces to `+0`, so the unparsable post ties with
everything and the stable sort leaves it in front; the resulting list is
not descending under the claimed unparsable-as-0 key. -/
theorem getAllPosts_unparsable_not_epoch_sorted :
    (getAllPosts none 0 [postNoDate, postOld, postNew] [] "" "" "").posts =
      [postNoDate, postNew, postOld] ∧
    ¬ (getAllPosts none 0 [postNoDate, postOld, postNew] [] "" "" "").posts.Pairwise
        descKey := by
  decide

/-- C4 amended: on a cache miss (no entry, or a stale one) with a
non-empty adapter concatenation, `getAllPosts()` returns the stable
insertion sort of the concatenation under the JavaScript comparator —
descending by parsed timestamp, except that a post with an unparsable
timestamp compares equal to every post (`NaN` is coerced to `+0`) and
keeps its stable position instead of sinking to epoch zero — and
overwrites the cache entry with exactly this list and the current time.
When every timestamp parses, the result is genuinely descending. -/
theorem getAllPosts_refresh_sorts_and_caches (cache : Option CacheEntry)
    (now : Int) (tw rss : List Post) (today yesterday twoDaysAgo : String)
    (hstale : ∀ c, cache = some c → ¬(now - c.timestamp < cacheDurationMs))
    (hne : tw ++ rss ≠ []) :
    (getAllPosts cache now tw rss today yesterday twoDaysAgo).posts =
      jsSortPosts (tw ++ rss) ∧
    (getAllPosts cache now tw rss today yesterday twoDaysAgo).cache =
      some ⟨jsSortPosts (tw ++ rss), now⟩ ∧
    ((∀ p ∈ tw ++ rss, (postTime p).isSome = true) →
      (getAllPosts cache now tw rss today yesterday twoDaysAgo).posts.Pairwise
        descKey) := by
  have hres : getAllPosts cache now tw rss today yesterday twoDaysAgo =
      refreshPosts cache now tw rss today yesterday twoDaysAgo := by
    cases cache with
    | none => rfl
    | some c => simp [getAllPosts, refreshPosts, hstale c rfl]
  have hemp : (tw ++ rss).isEmpty = false := by
    cases h : (tw ++ rss).isEmpty
    · rfl
    · exact absurd (List.isEmpty_iff.mp h) hne
  have hr : refreshPosts cache now tw rss today yesterday twoDaysAgo =
      { posts := jsSortPosts (tw ++ rss),
        cache := some ⟨jsSortPosts (tw ++ rss), now⟩, adapterCalls := 2 } := by
    simp [refreshPosts, hemp]
  rw [hres, hr]
  exact ⟨rfl, rfl, fun hall => pairwise_jsSortPosts (tw ++ rss) hall⟩

/-- Witness for C4 (amended) at a concrete two-post refresh with
parsable timestamps. -/
theorem getAllPosts_refresh_sorts_and_caches_witness :
    (getAllPosts none 0 [postOld, postNew] [] "" "" "").posts =
      jsSortPosts ([postOld, postNew] ++ []) ∧
    (getAllPosts none 0 [postOld, postNew] [] "" "" "").posts.Pairwise descKey := by
  have h := getAllPosts_refresh_sorts_and_caches none 0 [postOld, postNew] []
    "" "" "" (fun c hc => by cases hc) (by decide)
  exact ⟨h.1, h.2.2 (by decide)⟩

theorem hasTag_cons (c : Char) (rest : List Char) :
    hasTag (c :: rest) = ((decide (c = '<') && rest.contains '>') || hasTag rest) :=
  rfl

theorem contains_gt_eq_false_iff (l : List Char) :
    l.contains '>' = false ↔ '>' ∉ l := by
  simp [List.contains]

theorem hasTag_eq_false_of_no_gt (cs : List Char)
    (h : '>' ∉ cs) : hasTag cs = false := by
  induction cs with
  | nil => rfl
  | cons c rest ih =>
    rw [hasTag_cons]
    have h1 : rest.contains '>' = false :=
      (contains_gt_eq_false_iff rest).mpr (fun hm => h (List.mem_cons_of_mem _ hm))
    simp only [h1, Bool.and_false, Bool.false_or]
    exact ih (fun hm => h (List.mem_cons_of_mem _ hm))

theorem hasTag_sublist (l₁ l₂ : List Char) (hs : l₁.Sublist l₂)
    (h : hasTag l₂ = false) : hasTag l₁ = false := by
  induction hs with
  | slnil => rfl
  | cons a hs ih =>
    rw [hasTag_cons] at h
    exact ih (Bool.or_eq_false_iff.mp h).2
  | cons₂ a hs ih =>
    rw [hasTag_cons] at h ⊢
    obtain ⟨hl, hr⟩ := Bool.or_eq_false_iff.mp h
    apply Bool.or_eq_false_iff.mpr
    refine ⟨?_, ih hr⟩
    cases hd : decide (a = '<') with
    | false => simp
    | true =>
      rw [hd, Bool.true_and] at hl
      have h2 : '>' ∉ _ := (contains_gt_eq_false_iff _).mp hl
      have h3 : '>' ∉ _ := fun hm => h2 (hs.subset hm)
      rw [(contains_gt_eq_false_iff _).mpr h3]
      simp

theorem hasTag_stripTagsF (fuel : Nat) (cs : List Char) (hf : cs.length ≤ fuel) :
    hasTag (stripTagsF fuel cs) = false := by
  induction fuel generalizing cs with
  | zero =>
    have h0 : cs = [] := List.eq_nil_of_length_eq_zero (Nat.le_zero.mp hf)
    subst h0
    rfl
  | succ fuel ih =>
    match cs with
    | [] => rfl
    | c :: rest =>
      by_cases hc : c = '<'
      · subst hc
        cases hd : rest.dropWhile (fun d => !(d = '>')) with
        | nil =>
          have hng : '>' ∉ rest := by
            intro hm
            have := List.dropWhile_eq_nil_iff.mp hd '>' hm
            simp at this
          simp only [stripTagsF, if_pos rfl, hd, if_true]
          rw [hasTag_cons, (contains_gt_eq_false_iff rest).mpr hng]
          simp [hasTag_eq_false_of_no_gt rest hng]
        | cons e after =>
          have hlen : after.length ≤ fuel := by
            have h1 : (rest.dropWhile (fun d => !(d = '>'))).length ≤ rest.length :=
              (List.dropWhile_sublist _).length_le
            rw [hd] at h1
            simp only [List.length_cons] at h1 hf
            omega
          simp only [stripTagsF, if_pos rfl, hd, if_true]
          exact ih after hlen
      · simp only [stripTagsF, if_neg hc]
        rw [hasTag_cons]
        have hd : decide (c = '<') = false := by simp [hc]
        rw [hd]
        simp only [Bool.false_and, Bool.false_or]
        exact ih rest (by simp only [List.length_cons] at hf; omega)

theorem hasTag_stripTags (cs : List Char) : hasTag (stripTags cs) = false :=
  hasTag_stripTagsF cs.length cs (Nat.le_refl _)

theorem mem_stripEntitiesF (fuel : Nat) (cs : List Char) (x : Char)
    (hx : x ∈ stripEntitiesF fuel cs) : x = ' ' ∨ x ∈ cs := by
  induction fuel generalizing cs with
  | zero => exact Or.inr hx
  | succ fuel ih =>
    match cs with
    | [] => exact Or.inr hx
    | c :: rest =>
      by_cases hc : c = '&'
      · subst hc
        match rest with
        | [] =>
          simp only [stripEntitiesF] at hx
          exact Or.inr hx
        | d :: tail =>
          by_cases hdc : d = ';'
          · subst hdc
            simp only [stripEntitiesF, if_pos rfl, if_true] at hx
            rcases List.mem_cons.mp hx with rfl | hx'
            · exact Or.inr (List.mem_cons_self _ _)
            · rcases ih _ hx' with h | h
              · exact Or.inl h
              · exact Or.inr (List.mem_cons_of_mem _ h)
          · cases hd : (d :: tail).dropWhile (fun y => !(y = ';')) with
            | nil =>
              simp only [stripEntitiesF, if_pos rfl, if_neg hdc, hd, if_true] at hx
              exact Or.inr hx
            | cons e after =>
              simp only [stripEntitiesF, if_pos rfl, if_neg hdc, hd, if_true] at hx
              rcases List.mem_cons.mp hx with rfl | hx'
              · exact Or.inl rfl
              · rcases ih _ hx' with h | h
                · exact Or.inl h
                · refine Or.inr (List.mem_cons_of_mem _ ?_)
                  have hsub : after.Sublist (d :: tail) := by
                    have h1 : (e :: after).Sublist (d :: tail) := by
                      rw [← hd]; exact List.dropWhile_sublist _
                    exact (List.tail_sublist (e :: after)).trans h1
                  exact hsub.subset h
      · simp only [stripEntitiesF, if_neg hc] at hx
        rcases List.mem_cons.mp hx with rfl | hx'
        · exact Or.inr (List.mem_cons_self _ _)
        · rcases ih _ hx' with h | h
          · exact Or.inl h
          · exact Or.inr (List.mem_cons_of_mem _ h)

theorem mem_collapseWsF (fuel : Nat) (cs : List Char) (x : Char)
    (hx : x ∈ collapseWsF fuel cs) : x = ' ' ∨ x ∈ cs := by
  induction fuel generalizing cs with
  | zero => exact Or.inr hx
  | succ fuel ih =>
    match cs with
    | [] => exact Or.inr hx
    | c :: rest =>
      by_cases hc : isJsSpace c = true
      · simp only [collapseWsF, if_pos hc] at hx
        rcases List.mem_cons.mp hx with rfl | hx'
        · exact Or.inl rfl
        · rcases ih _ hx' with h | h
          · exact Or.inl h
          · exact Or.inr
              (List.mem_cons_of_mem _ ((List.dropWhile_sublist _).subset h))
      · simp only [collapseWsF, if_neg hc] at hx
        rcases List.mem_cons.mp hx with rfl | hx'
        · exact Or.inr (List.mem_cons_self _ _)
        · rcases ih _ hx' with h | h
          · exact Or.inl h
          · exact Or.inr (List.mem_cons_of_mem _ h)

theorem hasTag_cons_false_parts (c : Char) (rest : List Char)
    (h : hasTag (c :: rest) = false) :
    (decide (c = '<') && rest.contains '>') = false ∧ hasTag rest = false := by
  rw [hasTag_cons] at h
  exact Bool.or_eq_false_iff.mp h

theorem hasTag_stripEntitiesF (fuel : Nat) (cs : List Char)
    (h : hasTag cs = false) : hasTag (stripEntitiesF fuel cs) = false := by
  induction fuel generalizing cs with
  | zero => exact h
  | succ fuel ih =>
    match cs with
    | [] => exact h
    | c :: rest =>
      obtain ⟨h1, h2⟩ := hasTag_cons_false_parts c rest h
      by_cases hc : c = '&'
      · subst hc
        match rest with
        | [] => simp only [stripEntitiesF]; rfl
        | d :: tail =>
          by_cases hdc : d = ';'
          · subst hdc
            simp only [stripEntitiesF, if_pos rfl, if_true]
            rw [hasTag_cons]
            simp only [show decide ('&' = '<') = false from rfl, Bool.false_and,
              Bool.false_or]
            exact ih _ h2
          · cases hd : (d :: tail).dropWhile (fun y => !(y = ';')) with
            | nil =>
              simp only [stripEntitiesF, if_pos rfl, if_neg hdc, hd, if_true]
              exact h
            | cons e after =>
              simp only [stripEntitiesF, if_pos rfl, if_neg hdc, hd, if_true]
              rw [hasTag_cons]
              simp only [show decide (' ' = '<') = false from rfl, Bool.false_and,
                Bool.false_or]
              have hsub : after.Sublist (d :: tail) := by
                have hds : (e :: after).Sublist (d :: tail) := by
                  rw [← hd]; exact List.dropWhile_sublist _
                exact (List.tail_sublist (e :: after)).trans hds
              exact ih _ (hasTag_sublist _ _ hsub h2)
      · simp only [stripEntitiesF, if_neg hc]
        rw [hasTag_cons]
        apply Bool.or_eq_false_iff.mpr
        refine ⟨?_, ih _ h2⟩
        cases hdt : decide (c = '<') with
        | false => simp
        | true =>
          rw [hdt, Bool.true_and] at h1
          rw [Bool.true_and]
          have hng : '>' ∉ rest := (contains_gt_eq_false_iff rest).mp h1
          apply (contains_gt_eq_false_iff _).mpr
          intro hm
          rcases mem_stripEntitiesF fuel rest '>' hm with habs | hmem
          · exact absurd habs (by decide)
          · exact hng hmem

theorem hasTag_collapseWsF (fuel : Nat) (cs : List Char)
    (h : hasTag cs = false) : hasTag (collapseWsF fuel cs) = false := by
  induction fuel generalizing cs with
  | zero => exact h
  | succ fuel ih =>
    match cs with
    | [] => exact h
    | c :: rest =>
      obtain ⟨h1, h2⟩ := hasTag_cons_false_parts c rest h
      by_cases hc : isJsSpace c = true
      · simp only [collapseWsF, if_pos hc]
        rw [hasTag_cons]
        simp only [show decide (' ' = '<') = false from rfl, Bool.false_and,
          Bool.false_or]
        exact ih _ (hasTag_sublist _ _ (List.dropWhile_sublist _) h2)
      · simp only [collapseWsF, if_neg hc]
        rw [hasTag_cons]
        apply Bool.or_eq_false_iff.mpr
        refine ⟨?_, ih _ h2⟩
        cases hdt : decide (c = '<') with
        | false => simp
        | true =>
          rw [hdt, Bool.true_and] at h1
          rw [Bool.true_and]
          have hng : '>' ∉ rest := (contains_gt_eq_false_iff rest).mp h1
          apply (contains_gt_eq_false_iff _).mpr
          intro hm
          rcases mem_collapseWsF fuel rest '>' hm with habs | hmem
          · exact absurd habs (by decide)
          · exact hng hmem

theorem hasDoubleSpace_cons₂ (a b : Char) (r : List Char) :
    hasDoubleSpace (a :: b :: r) =
      ((isJsSpace a && isJsSpace b) || hasDoubleSpace (b :: r)) :=
  rfl

theorem hasDoubleSpace_tail (x : Char) (l : List Char)
    (h : hasDoubleSpace (x :: l) = false) : hasDoubleSpace l = false := by
  cases l with
  | nil => rfl
  | cons y r =>
    rw [hasDoubleSpace_cons₂] at h
    exact (Bool.or_eq_false_iff.mp h).2

theorem hasDoubleSpace_append_right (a b : List Char)
    (h : hasDoubleSpace (a ++ b) = false) : hasDoubleSpace b = false := by
  induction a with
  | nil => exact h
  | cons x t ih =>
    rw [List.cons_append] at h
    exact ih (hasDoubleSpace_tail x (t ++ b) h)

theorem hasDoubleSpace_append_left (a b : List Char)
    (h : hasDoubleSpace (a ++ b) = false) : hasDoubleSpace a = false := by
  induction a with
  | nil => rfl
  | cons x t ih =>
    cases t with
    | nil => rfl
    | cons y r =>
      rw [List.cons_append, List.cons_append, hasDoubleSpace_cons₂] at h
      obtain ⟨h1, h2⟩ := Bool.or_eq_false_iff.mp h
      rw [hasDoubleSpace_cons₂]
      apply Bool.or_eq_false_iff.mpr
      refine ⟨h1, ih ?_⟩
      rw [List.cons_append]
      exact h2

theorem head_dropWhile_not_space (l : List Char) (c : Char)
    (h : (l.dropWhile isJsSpace).head? = some c) : isJsSpace c = false := by
  have h2 := List.head?_dropWhile_not isJsSpace l
  rw [h] at h2
  exact h2

theorem collapseWsF_head (fuel : Nat) (cs : List Char) (d : Char) (tl : List Char)
    (hh : ∀ c0 tl0, cs = c0 :: tl0 → isJsSpace c0 = false)
    (he : collapseWsF fuel cs = d :: tl) : isJsSpace d = false := by
  cases fuel with
  | zero => exact hh d tl he
  | succ fuel =>
    cases cs with
    | nil => exact absurd he (by simp [collapseWsF])
    | cons c rest =>
      by_cases hc : isJsSpace c = true
      · exact absurd (hh c rest rfl) (by simp [hc])
      · simp only [collapseWsF, if_neg hc] at he
        have : c = d := (List.cons.injEq _ _ _ _).mp he |>.1
        subst this
        simpa using hc

theorem hasDoubleSpace_collapseWsF (fuel : Nat) (cs : List Char)
    (hf : cs.length ≤ fuel) :
    hasDoubleSpace (collapseWsF fuel cs) = false := by
  induction fuel generalizing cs with
  | zero =>
    have h0 : cs = [] := List.eq_nil_of_length_eq_zero (Nat.le_zero.mp hf)
    subst h0
    rfl
  | succ fuel ih =>
    cases cs with
    | nil => rfl
    | cons c rest =>
      by_cases hc : isJsSpace c = true
      · simp only [collapseWsF, if_pos hc]
        have hlen : (rest.dropWhile isJsSpace).length ≤ fuel := by
          have hsb : (rest.dropWhile isJsSpace).Sublist rest :=
            List.dropWhile_sublist _
          have h1 := hsb.length_le
          simp only [List.length_cons] at hf
          omega
        cases hX : collapseWsF fuel (rest.dropWhile isJsSpace) with
        | nil => rfl
        | cons d r =>
          have hd : isJsSpace d = false := by
            apply collapseWsF_head fuel _ d r _ hX
            intro c0 tl0 h0
            exact head_dropWhile_not_space rest c0 (by rw [h0]; rfl)
          rw [hasDoubleSpace_cons₂, hd]
          simp only [Bool.and_false, Bool.false_or]
          rw [← hX]
          exact ih _ hlen
      · simp only [collapseWsF, if_neg hc]
        cases hX : collapseWsF fuel rest with
        | nil => rfl
        | cons d r =>
          rw [hasDoubleSpace_cons₂]
          have hcf : isJsSpace c = false := by simpa using hc
          rw [hcf]
          simp only [Bool.false_and, Bool.false_or]
          rw [← hX]
          exact ih rest (by simp only [List.length_cons] at hf; omega)

theorem trimChars_sublist (cs : List Char) : (trimChars cs).Sublist cs := by
  unfold trimChars
  have h2 : (((cs.dropWhile isJsSpace).reverse.dropWhile isJsSpace)).Sublist
      (cs.dropWhile isJsSpace).reverse := List.dropWhile_sublist _
  have h3 := h2.reverse
  rw [List.reverse_reverse] at h3
  exact h3.trans (List.dropWhile_sublist _)

theorem trimChars_prefix_drop (cs : List Char) :
    ∃ b, cs.dropWhile isJsSpace = trimChars cs ++ b := by
  refine ⟨((cs.dropWhile isJsSpace).reverse.takeWhile isJsSpace).reverse, ?_⟩
  unfold trimChars
  rw [← List.reverse_append, List.takeWhile_append_dropWhile,
    List.reverse_reverse]

theorem trimChars_decomp (cs : List Char) :
    ∃ a b, cs = a ++ (trimChars cs ++ b) := by
  obtain ⟨b, hb⟩ := trimChars_prefix_drop cs
  refine ⟨cs.takeWhile isJsSpace, b, ?_⟩
  conv_lhs => rw [← List.takeWhile_append_dropWhile isJsSpace cs]
  rw [hb]

theorem trimChars_head (cs : List Char) (c : Char)
    (h : (trimChars cs).head? = some c) : isJsSpace c = false := by
  obtain ⟨b, hb⟩ := trimChars_prefix_drop cs
  cases ht : trimChars cs with
  | nil => rw [ht] at h; exact absurd h (by simp)
  | cons d tl =>
    rw [ht] at h
    have hcd : c = d := by simpa using h.symm
    subst hcd
    have hpre : (cs.dropWhile isJsSpace).head? = some c := by
      rw [hb, ht, List.cons_append]
      rfl
    exact head_dropWhile_not_space cs c hpre

theorem trimChars_getLast (cs : List Char) (c : Char)
    (h : (trimChars cs).getLast? = some c) : isJsSpace c = false := by
  unfold trimChars at h
  rw [List.getLast?_reverse] at h
  exact head_dropWhile_not_space _ c h

/-- C5 amended: for every input, `cleanContent` returns at most 500
characters, with no `<...>` markup tag, no two adjacent whitespace
characters, and no leading whitespace; the output has no trailing
whitespace either whenever the trimmed text fits in 500 characters —
but because the code trims BEFORE truncating, truncation of a longer
text can expose a single trailing space (see the counterexample). -/
theorem cleanContent_props (s : String) :
    (cleanContent s).length ≤ 500 ∧
    hasTag (cleanContent s).data = false ∧
    hasDoubleSpace (cleanContent s).data = false ∧
    (∀ c, (cleanContent s).data.head? = some c → isJsSpace c = false) ∧
    ((preClean s).length ≤ 500 →
      ∀ c, (cleanContent s).data.getLast? = some c → isJsSpace c = false) := by
  have hdata : (cleanContent s).data = (preClean s).take 500 := rfl
  have hpredef : preClean s =
      trimChars (collapseWs (stripEntities (stripTags s.data))) := rfl
  have hm : hasTag (collapseWs (stripEntities (stripTags s.data))) = false :=
    hasTag_collapseWsF _ _ (hasTag_stripEntitiesF _ _ (hasTag_stripTags s.data))
  have hD : hasDoubleSpace (collapseWs (stripEntities (stripTags s.data))) = false :=
    hasDoubleSpace_collapseWsF _ _ (Nat.le_refl _)
  refine ⟨?_, ?_, ?_, ?_, ?_⟩
  · rw [show (cleanContent s).length = ((preClean s).take 500).length from rfl]
    exact List.length_take_le _ _
  · rw [hdata]
    apply hasTag_sublist _ _ (List.take_sublist _ _)
    rw [hpredef]
    exact hasTag_sublist _ _ (trimChars_sublist _) hm
  · rw [hdata]
    obtain ⟨a, b, hab⟩ :=
      trimChars_decomp (collapseWs (stripEntities (stripTags s.data)))
    rw [← hpredef] at hab
    have hsplit : preClean s = (preClean s).take 500 ++ (preClean s).drop 500 :=
      (List.take_append_drop _ _).symm
    have hM : collapseWs (stripEntities (stripTags s.data)) =
        a ++ (((preClean s).take 500 ++ (preClean s).drop 500) ++ b) := by
      rw [← hsplit]
      exact hab
    have h1 := hasDoubleSpace_append_right a _ (by rw [← hM]; exact hD)
    have h2 := hasDoubleSpace_append_left _ b h1
    exact hasDoubleSpace_append_left _ _ h2
  · intro c hc
    rw [hdata] at hc
    cases hp : preClean s with
    | nil => rw [hp] at hc; exact absurd hc (by simp)
    | cons d tl =>
      rw [hp] at hc
      have htake : (d :: tl).take 500 = d :: tl.take 499 := rfl
      rw [htake] at hc
      have hcd : c = d := by simpa using hc.symm
      subst hcd
      apply trimChars_head (collapseWs (stripEntities (stripTags s.data))) c
      rw [← hpredef, hp]
      rfl
  · intro hfit c hc
    rw [hdata, List.take_of_length_le hfit] at hc
    rw [hpredef] at hc
    exact trimChars_getLast _ c hc

set_option maxRecDepth 100000 in
/-- C5 counterexample: the 501-character input `"aa…a a"` (499 `a`s, a
space, one more `a`) is already trimmed and collapse-clean, but
`substring(0, 500)` cuts after the space, so `cleanContent` returns a
string ENDING in whitespace — the claimed "no trailing whitespace" fails. -/
theorem cleanContent_trailing_space :
    (cleanContent (String.mk (List.replicate 499 'a' ++ [' ', 'a']))).data.getLast?
      = some ' ' ∧ isJsSpace ' ' = true := by
  constructor
  · decide
  · decide

theorem isEmpty_false_of_ne (v : String) (hv : v ≠ "") : v.isEmpty = false := by
  cases hi : v.isEmpty with
  | false => rfl
  | true => exact absurd ((String.isEmpty_iff v).mp hi) hv

theorem platform_guard_iff (o : Option String) (p : String) :
    (strTruthy o && !(p == o.getD "")) = false ↔
      (∀ v, o = some v → v ≠ "" → p = v) := by
  cases o with
  | none => simp [strTruthy]
  | some v =>
    by_cases hv : v = ""
    · subst hv
      simp [strTruthy, show ("" : String).isEmpty = true from rfl]
    · simp [strTruthy, isEmpty_false_of_ne v hv, hv]

theorem category_guard_iff (o : Option String) (c : Option String) :
    (strTruthy o && !(c == some (o.getD ""))) = false ↔
      (∀ v, o = some v → v ≠ "" → c = some v) := by
  cases o with
  | none => simp [strTruthy]
  | some v =>
    by_cases hv : v = ""
    · subst hv
      simp [strTruthy, show ("" : String).isEmpty = true from rfl]
    · simp [strTruthy, isEmpty_false_of_ne v hv, hv]

theorem dateFrom_guard_iff (o : Option String) (d : String) :
    (strTruthy o && decide (d < o.getD "")) = false ↔
      (∀ v, o = some v → v ≠ "" → ¬(d < v)) := by
  cases o with
  | none => simp [strTruthy]
  | some v =>
    by_cases hv : v = ""
    · subst hv
      simp [strTruthy, show ("" : String).isEmpty = true from rfl]
    · simp [strTruthy, isEmpty_false_of_ne v hv, hv]

theorem dateTo_guard_iff (o : Option String) (d : String) :
    (strTruthy o && decide (o.getD "" < d)) = false ↔
      (∀ v, o = some v → v ≠ "" → ¬(v < d)) := by
  cases o with
  | none => simp [strTruthy]
  | some v =>
    by_cases hv : v = ""
    · subst hv
      simp [strTruthy, show ("" : String).isEmpty = true from rfl]
    · simp [strTruthy, isEmpty_false_of_ne v hv, hv]

theorem tags_guard_iff (o : Option (List String)) (post : Post) :
    (tagsGiven o && !(tagsMatch o post)) = false ↔
      (∀ ts, o = some ts → ts ≠ [] → ∃ tag ∈ ts, ∃ pt ∈ post.tags,
        hasSub (jsToLower tag).data (jsToLower pt).data = true) := by
  cases o with
  | none => simp [tagsGiven]
  | some ts =>
    by_cases hts : ts = []
    · subst hts
      simp [tagsGiven]
    · have hlen : 0 < ts.length := List.length_pos.mpr hts
      simp [tagsGiven, tagsMatch, hlen, hts, List.any_eq_true]

theorem keepPost_eq (f : SearchFilters) (post : Post) :
    keepPost f post =
      (!(strTruthy f.platform && !(post.platform == f.platform.getD "")) &&
       (!(strTruthy f.category && !(post.category == some (f.category.getD ""))) &&
        (!(strTruthy f.dateFrom && decide (post.date < f.dateFrom.getD "")) &&
         (!(strTruthy f.dateTo && decide (f.dateTo.getD "" < post.date)) &&
          !(tagsGiven f.tags && !(tagsMatch f.tags post)))))) := by
  unfold keepPost
  cases strTruthy f.platform && !(post.platform == f.platform.getD "") <;>
    cases strTruthy f.category && !(post.category == some (f.category.getD "")) <;>
      cases strTruthy f.dateFrom && decide (post.date < f.dateFrom.getD "") <;>
        cases strTruthy f.dateTo && decide (f.dateTo.getD "" < post.date) <;>
          cases tagsGiven f.tags && !(tagsMatch f.tags post) <;> rfl

/-- C8 amended: a post is in `filterPosts posts filters` iff it is in
`posts` and every present AND non-falsy filter dimension holds for it —
an empty-string `platform`/`category`/`dateFrom`/`dateTo` and an empty
`tags` list are falsy in JavaScript and therefore impose no constraint;
the remaining semantics is as claimed: exact platform/category equality,
lexicographic `dateFrom ≤ post.date ≤ dateTo`, and for a non-empty tag
list OR-semantics with case-insensitive substring matching. -/
theorem filterPosts_mem_iff (posts : List Post) (f : SearchFilters) (post : Post) :
    post ∈ filterPosts posts f ↔
      post ∈ posts ∧
      (∀ v, f.platform = some v → v ≠ "" → post.platform = v) ∧
      (∀ v, f.category = some v → v ≠ "" → post.category = some v) ∧
      (∀ v, f.dateFrom = some v → v ≠ "" → ¬(post.date < v)) ∧
      (∀ v, f.dateTo = some v → v ≠ "" → ¬(v < post.date)) ∧
      (∀ ts, f.tags = some ts → ts ≠ [] → ∃ tag ∈ ts, ∃ pt ∈ post.tags,
        hasSub (jsToLower tag).data (jsToLower pt).data = true) := by
  have hk : keepPost f post = true ↔
      ((∀ v, f.platform = some v → v ≠ "" → post.platform = v) ∧
       (∀ v, f.category = some v → v ≠ "" → post.category = some v) ∧
       (∀ v, f.dateFrom = some v → v ≠ "" → ¬(post.date < v)) ∧
       (∀ v, f.dateTo = some v → v ≠ "" → ¬(v < post.date)) ∧
       (∀ ts, f.tags = some ts → ts ≠ [] → ∃ tag ∈ ts, ∃ pt ∈ post.tags,
         hasSub (jsToLower tag).data (jsToLower pt).data = true)) := by
    rw [keepPost_eq]
    simp only [Bool.and_eq_true, Bool.not_eq_true']
    rw [platform_guard_iff, category_guard_iff, dateFrom_guard_iff,
      dateTo_guard_iff, tags_guard_iff]
  rw [filterPosts, List.mem_filter, hk]

/-- C8 counterexample: `filterPosts` with the present-but-empty filter
`{platform: ""}` keeps a Twitter post (JavaScript truthiness skips the
check), while the claimed "exact equality on every present dimension"
semantics would reject it. -/
theorem filterPosts_falsy_filter :
    filterPosts [postTw] { platform := some "" } = [postTw] ∧
    specPasses postTw { platform := some "" } = false := by
  constructor
  · decide
  · decide
